import Mathlib

/-!
Shallow embedding of the halite-match-manager round pipeline (`manager.py`):
the engine-output parser (`Match.parse_results_string`), match execution
(`Match.run_match`), the round driver (`Manager.run_round` / `run_rounds`),
participant selection (`Manager.pick_players`), and the player store
(`Database` methods and the `Player` record).

Python strings are Lean `String`, Python floats (`mu`, `sigma`, `skill`) are
modelled as `ℚ`, the SQLite player table is a `List Player`, and Python
exceptions are an explicit error type threaded with `Except`/`Option`.
Randomness (`random.randint`) and the external TrueSkill calculator (the
`skills` library) are oracle parameters.
-/

namespace Halite

/-- Python exceptions that the round pipeline can raise.
`valueError` covers `int()` failures, the parser's explicit
`raise ValueError("Not enough lines...")` and `random.randint` on an empty
range; `indexError` is a list subscript out of range; `timeoutExpired` is
`subprocess.TimeoutExpired` raised by `Popen.communicate`. -/
inductive PyErr where
  | valueError
  | indexError
  | timeoutExpired
deriving DecidableEq

/-- `Python str.split(sep)` for a one-character separator: splits at every
occurrence, keeping empty pieces, and returns `[""]` on the empty string.
(Both separators used by the source, `"\n"` and `" "`, are one character.) -/
def splitOnChar (sep : Char) : List Char → List (List Char)
  | [] => [[]]
  | c :: cs =>
    let r := splitOnChar sep cs
    if c = sep then [] :: r
    else
      match r with
      | [] => [[c]]
      | w :: ws => (c :: w) :: ws

/-- `s.split(sep)` from Python, as Lean strings. -/
def pySplit (s : String) (sep : Char) : List String :=
  (splitOnChar sep s.toList).map (fun cs => String.mk cs)

/-- Digits-only check for the body of an integer literal. -/
def allDigits (cs : List Char) : Bool :=
  !cs.isEmpty && cs.all Char.isDigit

/-- Decimal value of a digit string. -/
def digitsVal (cs : List Char) : Nat :=
  cs.foldl (fun acc c => acc * 10 + (c.toNat - 48)) 0

/-- Model of Python `int(str)`: optional surrounding whitespace, an optional
sign, then a non-empty run of decimal digits; anything else raises
`ValueError` (returns `none`). -/
def pyInt (s : String) : Option Int :=
  let cs := ((s.toList.dropWhile Char.isWhitespace).reverse.dropWhile
      Char.isWhitespace).reverse
  match cs with
  | '-' :: rest => if allDigits rest then some (-(digitsVal rest : Int)) else none
  | '+' :: rest => if allDigits rest then some (digitsVal rest : Int) else none
  | _ => if allDigits cs then some (digitsVal cs : Int) else none

/-- Python list assignment `l[i] = v`: a negative index counts from the end
(one length added), and an index still out of range raises `IndexError`
(returns `none`). -/
def listSet (l : List Int) (i : Int) (v : Int) : Option (List Int) :=
  let j : Int := if i < 0 then i + l.length else i
  if 0 ≤ j ∧ j < (l.length : Int) then some (l.set j.toNat v) else none

/-- The parser-visible fields of a `Match` object: `self.results`,
`self.replay_file`, `self.timeouts`. -/
structure ParseState where
  results : List Int
  replay_file : String
  timeouts : List String
deriving DecidableEq

/-- `Match.__init__`: `results = [0 for _ in players]`, empty replay name,
no timeouts. -/
def initMatchState (num_players : Nat) : ParseState :=
  { results := List.replicate num_players 0, replay_file := "", timeouts := [] }

/-- One iteration of the `for line in lines` loop of
`Match.parse_results_string`, at loop counter `count`. -/
def parseLine (num_players : Nat) (st : ParseState) (count : Nat) (line : String) :
    Except PyErr ParseState :=
  if count = num_players then
    -- replay file and seed: `self.replay_file = line.split(" ")[0]`
    match (pySplit line ' ')[0]? with
    | none => .error .indexError
    | some t0 => .ok { st with replay_file := t0 }
  else if count = 2 * num_players + 1 then
    -- timeouts: `self.timeouts = (line.split(" "))`
    .ok { st with timeouts := pySplit line ' ' }
  else if count < num_players then
    -- names: pass
    .ok st
  else if count < 2 * num_players + 1 then
    -- `token = line.split(" "); rank = int(token[0]); player = int(token[1]) - 1`
    -- `self.results[player] = rank`
    match (pySplit line ' ')[0]? with
    | none => .error .indexError
    | some t0 =>
      match pyInt t0 with
      | none => .error .valueError
      | some rank =>
        match (pySplit line ' ')[1]? with
        | none => .error .indexError
        | some t1 =>
          match pyInt t1 with
          | none => .error .valueError
          | some pidx =>
            match listSet st.results (pidx - 1) rank with
            | none => .error .indexError
            | some rs => .ok { st with results := rs }
  else
    .ok st

/-- The `for line in lines` loop with its `count` accumulator. -/
def parseLines (num_players : Nat) (st : ParseState) (count : Nat) :
    List String → Except PyErr ParseState
  | [] => .ok st
  | line :: rest =>
    match parseLine num_players st count line with
    | .error e => .error e
    | .ok st' => parseLines num_players st' (count + 1) rest

/-- `Match.parse_results_string`: split the captured output on newlines,
raise `ValueError` when fewer than `2 + 2 * num_players` lines are present,
otherwise run the positional line loop starting from the freshly
initialised match state. -/
def parse_results_string (num_players : Nat) (results_string : String) :
    Except PyErr ParseState :=
  let lines := pySplit results_string '\n'
  if lines.length < 2 + 2 * num_players then .error .valueError
  else parseLines num_players (initMatchState num_players) 0 lines

/-- The `Player` record: one row of the SQLite `players` table and, equally,
one in-memory `Player` object (the fields coincide; `parse_player_record`
converts between the two). -/
structure Player where
  name : String
  path : String
  last_seen : String
  rank : Int
  skill : ℚ
  mu : ℚ
  sigma : ℚ
  ngames : Nat
  active : Bool
deriving DecidableEq

/-- `Player.update_skill`: `self.skill = self.mu - (self.sigma * 3)`. -/
def Player.update_skill (p : Player) : Player :=
  { p with skill := p.mu - p.sigma * 3 }

/-- Module-level `update_player_skill(players, player_name, skill_data)`:
writes `mu`/`sigma` from the calculator's posterior into the first player of
the list with the matching name and recomputes its `skill`. -/
def update_player_skill : List Player → String → ℚ → ℚ → List Player
  | [], _, _, _ => []
  | p :: ps, name, mean, stdev =>
    if p.name = name then
      Player.update_skill { p with mu := mean, sigma := stdev } :: ps
    else
      p :: update_player_skill ps name mean stdev

/-- `update_ranks(players, ranks)`: feeds the match outcome to the external
TrueSkill calculator and applies every posterior `(name, mean, stdev)` it
returns via `update_player_skill`. The calculator (the `skills` library) is
an external collaborator, passed here as the flattened list of posteriors it
produced. -/
def update_ranks (players : List Player) (posteriors : List (String × ℚ × ℚ)) :
    List Player :=
  posteriors.foldl (fun ps r => update_player_skill ps r.1 r.2.1 r.2.2) players

/-- `Database.update_player_skill`: the SQL
`update players set ngames=ngames+1,lastseen=?,skill=?,mu=?,sigma=? where name=?`. -/
def Database.update_player_skill (db : List Player) (name : String)
    (skill mu sigma : ℚ) (now : String) : List Player :=
  db.map fun r =>
    if r.name = name then
      { r with ngames := r.ngames + 1, last_seen := now,
               skill := skill, mu := mu, sigma := sigma }
    else r

/-- `Database.save_player`: stores a player's current skill/mu/sigma. -/
def Database.save_player (db : List Player) (p : Player) (now : String) :
    List Player :=
  Database.update_player_skill db p.name p.skill p.mu p.sigma now

/-- `Manager.save_players`: saves each participant in order. -/
def save_players (db : List Player) (players : List Player) (now : String) :
    List Player :=
  players.foldl (fun d p => Database.save_player d p now) db

/-- `Database.update_player_rank`: `update players set rank=? where name=?`. -/
def Database.update_player_rank (db : List Player) (name : String) (rank : Int) :
    List Player :=
  db.map fun r => if r.name = name then { r with rank := rank } else r

/-- The `order by skill desc` ordering of the `players` table. -/
def skillDesc (a b : Player) : Prop := b.skill ≤ a.skill

instance : DecidableRel skillDesc :=
  fun a b => inferInstanceAs (Decidable (b.skill ≤ a.skill))

/-- `select name from players order by skill desc` (SQLite leaves the order
of equal keys unspecified; a stable sort is one valid realisation). -/
def order_by_skill_desc (db : List Player) : List Player :=
  List.insertionSort skillDesc db

/-- The `for i, p in enumerate(...)` loop body of
`Database.update_player_ranks`: assign rank `i + 1` to the `i`-th name. -/
def assign_ranks (db : List Player) (i : Nat) : List String → List Player
  | [] => db
  | nm :: rest =>
    assign_ranks (Database.update_player_rank db nm ((i : Int) + 1)) (i + 1) rest

/-- `Database.update_player_ranks`: rewrite every player's `rank` to its
1-based position in the skill-descending order. -/
def Database.update_player_ranks (db : List Player) : List Player :=
  assign_ranks db 0 ((order_by_skill_desc db).map Player.name)

/-- `Database.get_player` specialised to one name (`select * from players
where name=?`; the SQLite TEXT comparison is case-sensitive). -/
def Database.get_player (db : List Player) (name : String) : List Player :=
  db.filter fun r => r.name = name

/-- The row inserted by `Database.add_player`:
`(None, name, path, now, 1000, 0.0, 50.0, 50.0/3.0, 0, True)` against columns
`(id, name, path, lastseen, rank, skill, mu, sigma, ngames, active)`. -/
def defaultPlayerRow (name path now : String) : Player :=
  { name := name, path := path, last_seen := now, rank := 1000,
    skill := 0, mu := 50, sigma := 50 / 3, ngames := 0, active := true }

/-- `Database.add_player`: inserts the default row. -/
def Database.add_player (db : List Player) (name path now : String) :
    List Player :=
  db ++ [defaultPlayerRow name path now]

/-- `Manager.add_player`: adds the bot only when no player with that name
exists; otherwise prints "Bot name already used, no bot added" and leaves the
table untouched. -/
def Manager.add_player (db : List Player) (name path now : String) :
    List Player :=
  if (Database.get_player db name).length = 0 then
    Database.add_player db name path now
  else db

/-- State of the spawned engine process. `Popen` starts it unkilled; nothing
in `manager.py` ever calls `kill()` or `terminate()` on it. -/
structure ProcState where
  killed : Bool
deriving DecidableEq

/-- `Match.run_match`: spawn the engine, call
`p.communicate(None, self.total_time_limit)` (which either returns the
captured stdout or raises `subprocess.TimeoutExpired` — `communicate` is the
only statement that can time out, and `run_match` wraps it in no
`try`/`except` and never kills the process), then parse the output and, on a
successful parse, apply the TrueSkill posteriors to the participants.
`communicate` is the outcome of that call; `calc` is the external TrueSkill
calculator (posteriors per name from the participants and the rank vector).
Returns the process state together with either the raised exception or the
parsed state and the updated participants. -/
def Match.run_match (num_players : Nat) (players : List Player)
    (communicate : Except Unit String)
    (tsCalc : List Player → List Int → List (String × ℚ × ℚ)) :
    ProcState × Except PyErr (ParseState × List Player) :=
  match communicate with
  | .error _ => ({ killed := false }, .error .timeoutExpired)
  | .ok results_string =>
    match parse_results_string num_players results_string with
    | .error e => ({ killed := false }, .error e)
    | .ok st =>
      ({ killed := false },
        .ok (st, update_ranks players (tsCalc players st.results)))

/-- Outcome of `Manager.run_round` on the player store: the table after the
round, the participant objects after the round, the engine process state,
and the exception that propagated out of `run_round`, if any. -/
structure RoundResult where
  db : List Player
  players : List Player
  proc : ProcState
  err : Option PyErr
deriving DecidableEq

/-- `Manager.run_round`: run the match, then — only when `run_match` returned
normally — `self.save_players(o_players)` followed by
`self.db.update_player_ranks()`. An exception raised inside `run_match`
propagates out of `run_round` before either store write is reached. -/
def Manager.run_round (db : List Player) (o_players : List Player)
    (communicate : Except Unit String)
    (tsCalc : List Player → List Int → List (String × ℚ × ℚ))
    (now : String) : RoundResult :=
  match Match.run_match o_players.length o_players communicate tsCalc with
  | (proc, .error e) => { db := db, players := o_players, proc := proc, err := some e }
  | (proc, .ok (_, players')) =>
    { db := Database.update_player_ranks (save_players db players' now),
      players := players', proc := proc, err := none }

/-- The configuration fields of `Manager.__init__` that the claims mention
(defaults from the source). -/
structure ManagerCfg where
  size_min : Int := 20
  size_max : Int := 50
  players_min : Nat := 2
  players_max : Nat := 6

/-- The participant-count draw of `Manager.run_rounds`:
`num_players = random.randint(2, min(self.players_max, len(self.players)))`.
The lower bound is the literal `2`; `self.players_min` is not consulted.
`rand t lo hi` is the `t`-th draw of the random stream; `randint` raises
`ValueError` on an empty range. -/
def Manager.round_num_players (cfg : ManagerCfg) (numPool : Nat)
    (rand : Nat → Nat → Nat → Nat) (t : Nat) : Option Nat :=
  if min cfg.players_max numPool < 2 then none
  else some (rand t 2 (min cfg.players_max numPool))

/-- The `while count < num` loop of `Manager.pick_players`: draw a random
index into `open_set`, append the chosen pool index to `players`, and remove
it from `open_set`. `random.randint(0, len(open_set) - 1)` raises
`ValueError` when `open_set` is empty; an out-of-range subscript would raise
`IndexError` (both modelled as `none`). -/
def pick_loop (rand : Nat → Nat → Nat → Nat) :
    Nat → List Nat → List Nat → Nat → Option (List Nat)
  | 0, _, players, _ => some players
  | fuel + 1, open_set, players, t =>
    if open_set.isEmpty then none
    else
      match open_set[rand t 0 (open_set.length - 1)]? with
      | none => none
      | some chosen =>
        pick_loop rand fuel (open_set.erase chosen) (players ++ [chosen]) (t + 1)

/-- `Manager.pick_players(num)`: `open_set = [i for i in range(0, len(self.players))]`,
then `num` iterations of the draw-and-remove loop. -/
def Manager.pick_players (numPool num : Nat) (rand : Nat → Nat → Nat → Nat) :
    Option (List Nat) :=
  pick_loop rand num (List.range numPool) [] 0

/-- The board-size draw of `Manager.run_rounds`:
`size_w = random.randint(self.size_min / 5, self.size_max / 5) * 5` followed
by `size_h = size_w`. Python 3 `/` is true division, and `random.randint`
raises `ValueError` unless both endpoints are integral (i.e. unless 5 divides
both bounds) and the range is non-empty; when 5 divides the bounds the true
quotients coincide with the integer quotients used here. -/
def Manager.choose_map_size (cfg : ManagerCfg) (rand : Int → Int → Int) :
    Option (Int × Int) :=
  if (5 ∣ cfg.size_min ∧ 5 ∣ cfg.size_max) ∧ cfg.size_min / 5 ≤ cfg.size_max / 5 then
    let size_w := rand (cfg.size_min / 5) (cfg.size_max / 5) * 5
    some (size_w, size_w)
  else none

/-- The per-player rating-update-then-persist chain of a completed round:
the module-level `update_player_skill` rewrites the matched player as
`Player.update_skill { q with mu := mean, sigma := stdev }` (the posterior
from the calculator), and `Manager.save_players` then persists exactly that
player object via `Database.save_player`. -/
def rating_update_then_save (db : List Player) (q : Player) (mean stdev : ℚ)
    (now : String) : List Player :=
  Database.save_player db (Player.update_skill { q with mu := mean, sigma := stdev }) now

/-- Position of a name in a list of names (first occurrence). -/
def idxOfName : List String → String → Nat
  | [], _ => 0
  | nm :: rest, x => if nm = x then 0 else idxOfName rest x + 1

/-- Both numeric tokens of a rank line (`int(token[0])`, `int(token[1])`)
parse as integers. -/
def rank_line_tokens_ok (line : String) : Prop :=
  ∃ t0 t1 r p, (pySplit line ' ')[0]? = some t0 ∧ pyInt t0 = some r ∧
    (pySplit line ' ')[1]? = some t1 ∧ pyInt t1 = some p

/-- `Database.get_player` returns no row exactly when no stored player has
the (case-sensitively) matching name. -/
lemma get_player_empty_iff (db : List Player) (name : String) :
    (Database.get_player db name).length = 0 ↔ ∀ r ∈ db, r.name ≠ name := by
  simp [Database.get_player, List.length_eq_zero, List.filter_eq_nil_iff]

/-- Claim C3: the concrete 2-participant engine output with 2 header lines,
`"replay123.hlt extra"`, `"1 1"`, `"2 2"`, `"0 0"` parses without error,
yields the rank vector `[1, 2]`, and sets the replay file name to the first
whitespace-delimited token `"replay123.hlt"`. -/
theorem parse_sample_output :
    parse_results_string 2 "h1\nh2\nreplay123.hlt extra\n1 1\n2 2\n0 0" =
      .ok { results := [1, 2], replay_file := "replay123.hlt",
            timeouts := ["0", "0"] } := rfl

/-- Claim C10: the write `self.results[player] = rank` is unguarded. With 2
participants, a rank line `"5 0"` (participant-index token `0`, i.e. Python
index `-1`) raises no error and silently assigns rank 5 to the last
participant, while an index token `3` (greater than the participant count)
raises `IndexError`, which is not the parser's `ValueError`. -/
theorem unguarded_rank_write :
    parse_results_string 2 "h1\nh2\nr1.hlt\n1 1\n5 0\n0 0" =
      .ok { results := [1, 5], replay_file := "r1.hlt", timeouts := ["0", "0"] } ∧
    parse_results_string 2 "h1\nh2\nr1.hlt\n1 1\n5 3\n0 0" =
      .error .indexError ∧
    PyErr.indexError ≠ PyErr.valueError :=
  ⟨rfl, rfl, by decide⟩

/-- Claim C2, counterexample: not every deviation from the §6 line protocol
is a `ParseError`. The rank line `"5 0"` deviates from the protocol (its
participant index is not a 1-based invocation position), yet parsing with 2
participants succeeds, silently recording rank 5 for the last participant. -/
theorem protocol_deviation_not_parse_error :
    parse_results_string 2 "n1\nn2\nr2.hlt\n1 1\n5 0\n0 0" =
      .ok { results := [1, 5], replay_file := "r2.hlt", timeouts := ["0", "0"] } :=
  rfl

/-- Claim C4 (code bug, evaluated at the failing input): when
`Popen.communicate` times out, `Match.run_match` lets the `TimeoutExpired`
exception propagate unhandled and the spawned engine process is left
unkilled (`killed = false`) — there is no handler and no `kill()` call in
the source. -/
theorem timeout_unhandled_process_not_killed :
    Match.run_match 2 [] (.error ()) (fun _ _ => []) =
      ({ killed := false }, .error .timeoutExpired) := rfl

/-- Claim C1: whenever `Manager.run_round` fails (a timeout, process error
or parse error propagated out of `Match.run_match`), the player table is
exactly as it was before the round and the participants' objects — hence
their `games_played`, `mu`, `sigma` and `skill` — are unchanged: both store
writes (`save_players`, `update_player_ranks`) come after `run_match` and
are never reached. -/
theorem failed_match_no_rating_mutation (db o_players : List Player)
    (communicate : Except Unit String)
    (tsCalc : List Player → List Int → List (String × ℚ × ℚ)) (now : String)
    (h : (Manager.run_round db o_players communicate tsCalc now).err.isSome) :
    (Manager.run_round db o_players communicate tsCalc now).db = db ∧
    (Manager.run_round db o_players communicate tsCalc now).players = o_players := by
  rcases hm : Match.run_match o_players.length o_players communicate tsCalc with ⟨proc, res⟩
  cases res with
  | error e => simp [Manager.run_round, hm]
  | ok v =>
    exfalso
    rcases v with ⟨st, players'⟩
    simp [Manager.run_round, hm] at h

/-- Witness for C1 at a concrete timed-out round. -/
theorem failed_match_no_rating_mutation_witness :
    (Manager.run_round [] [] (.error ()) (fun _ _ => []) "").db = [] ∧
    (Manager.run_round [] [] (.error ()) (fun _ _ => []) "").players = [] :=
  failed_match_no_rating_mutation [] [] (.error ()) (fun _ _ => []) "" (by decide)

/-- Claim C7: `Manager.add_player` leaves the table untouched when a player
with the (case-sensitively) same name already exists, and otherwise appends
exactly one row with the defaults `mu = 50`, `sigma = 50/3`, `skill = 0`,
`rank = 1000`, `games_played = 0`, `active = true`. -/
theorem add_player_spec (db : List Player) (name path now : String) :
    ((∃ r ∈ db, r.name = name) → Manager.add_player db name path now = db) ∧
    ((∀ r ∈ db, r.name ≠ name) →
      Manager.add_player db name path now = db ++ [defaultPlayerRow name path now]) ∧
    (defaultPlayerRow name path now).mu = 50 ∧
    (defaultPlayerRow name path now).sigma = 50 / 3 ∧
    (defaultPlayerRow name path now).skill = 0 ∧
    (defaultPlayerRow name path now).rank = 1000 ∧
    (defaultPlayerRow name path now).ngames = 0 ∧
    (defaultPlayerRow name path now).active = true := by
  refine ⟨?_, ?_, rfl, rfl, rfl, rfl, rfl, rfl⟩
  · rintro ⟨r, hr, hname⟩
    have h0 : ¬(Database.get_player db name).length = 0 := by
      rw [get_player_empty_iff]
      push_neg
      exact ⟨r, hr, hname⟩
    simp [Manager.add_player, h0]
  · intro hall
    have h0 : (Database.get_player db name).length = 0 :=
      (get_player_empty_iff db name).2 hall
    simp [Manager.add_player, h0, Database.add_player]

/-- Witness for C7: registering the already-used name "a" changes nothing. -/
theorem add_player_spec_witness :
    Manager.add_player [defaultPlayerRow "a" "p" "t0"] "a" "q" "t1" =
      [defaultPlayerRow "a" "p" "t0"] :=
  (add_player_spec [defaultPlayerRow "a" "p" "t0"] "a" "q" "t1").1
    ⟨defaultPlayerRow "a" "p" "t0", by simp, rfl⟩

/-- Claim C8: after a rating update is applied to a player and persisted
(the `update_player_skill` → `Player.update_skill` → `Database.save_player`
chain of a completed round), the stored row holds the newly written
posterior `mu`/`sigma`, its stored `skill` equals `mu - 3 * sigma` for those
new values, `games_played` is incremented by exactly one, and `last_seen` is
the current time. -/
theorem saved_skill_invariant (db : List Player) (q : Player) (mean stdev : ℚ)
    (now : String) (i : Nat) (r r' : Player)
    (hr : db[i]? = some r) (hname : r.name = q.name)
    (hr' : (rating_update_then_save db q mean stdev now)[i]? = some r') :
    r'.skill = r'.mu - 3 * r'.sigma ∧ r'.mu = mean ∧ r'.sigma = stdev ∧
    r'.ngames = r.ngames + 1 ∧ r'.last_seen = now := by
  simp only [rating_update_then_save, Database.save_player,
    Database.update_player_skill, Player.update_skill, List.getElem?_map, hr,
    Option.map_some'] at hr'
  rw [if_pos hname] at hr'
  obtain rfl := Option.some.inj hr'
  refine ⟨by ring, rfl, rfl, rfl, rfl⟩

/-- Witness for C8 at a concrete one-row table. -/
theorem saved_skill_invariant_witness :
    ({ name := "a", path := "p", last_seen := "t1", rank := 1000,
       skill := 10 - 1 * 3, mu := 10, sigma := 1, ngames := 1,
       active := true } : Player).skill =
      ({ name := "a", path := "p", last_seen := "t1", rank := 1000,
         skill := 10 - 1 * 3, mu := 10, sigma := 1, ngames := 1,
         active := true } : Player).mu -
        3 * ({ name := "a", path := "p", last_seen := "t1", rank := 1000,
               skill := 10 - 1 * 3, mu := 10, sigma := 1, ngames := 1,
               active := true } : Player).sigma ∧
    ({ name := "a", path := "p", last_seen := "t1", rank := 1000,
       skill := 10 - 1 * 3, mu := 10, sigma := 1, ngames := 1,
       active := true } : Player).mu = 10 ∧
    ({ name := "a", path := "p", last_seen := "t1", rank := 1000,
       skill := 10 - 1 * 3, mu := 10, sigma := 1, ngames := 1,
       active := true } : Player).sigma = 1 ∧
    ({ name := "a", path := "p", last_seen := "t1", rank := 1000,
       skill := 10 - 1 * 3, mu := 10, sigma := 1, ngames := 1,
       active := true } : Player).ngames = (defaultPlayerRow "a" "p" "t0").ngames + 1 ∧
    ({ name := "a", path := "p", last_seen := "t1", rank := 1000,
       skill := 10 - 1 * 3, mu := 10, sigma := 1, ngames := 1,
       active := true } : Player).last_seen = "t1" :=
  saved_skill_invariant [defaultPlayerRow "a" "p" "t0"]
    (defaultPlayerRow "a" "p" "t0") 10 1 "t1" 0 (defaultPlayerRow "a" "p" "t0")
    ({ name := "a", path := "p", last_seen := "t1", rank := 1000,
       skill := 10 - 1 * 3, mu := 10, sigma := 1, ngames := 1, active := true })
    rfl rfl rfl

/-- Claim C9: every chosen board size is a square whose side is 5 times an
integer drawn from `[size_min / 5, size_max / 5]` (with 5 dividing both
bounds whenever a size is chosen at all — otherwise `random.randint` raises
and no size is chosen — the integer quotients are exactly the floors of the
true quotients), and both dimensions lie within `[size_min, size_max]`. -/
theorem map_size_spec (cfg : ManagerCfg) (rand : Int → Int → Int)
    (hrand : ∀ lo hi, lo ≤ hi → lo ≤ rand lo hi ∧ rand lo hi ≤ hi)
    (w h : Int) (hc : Manager.choose_map_size cfg rand = some (w, h)) :
    h = w ∧ (5 ∣ w) ∧ cfg.size_min ≤ w ∧ w ≤ cfg.size_max ∧
    ∃ k, w = k * 5 ∧ cfg.size_min / 5 ≤ k ∧ k ≤ cfg.size_max / 5 := by
  unfold Manager.choose_map_size at hc
  split at hc
  case isFalse => exact absurd hc (by simp)
  case isTrue hcond =>
    obtain ⟨⟨h5min, h5max⟩, hle⟩ := hcond
    obtain ⟨hw, hh⟩ := Prod.mk.injEq .. ▸ Option.some.inj hc
    have hr := hrand (cfg.size_min / 5) (cfg.size_max / 5) hle
    have hmin : cfg.size_min / 5 * 5 = cfg.size_min := Int.ediv_mul_cancel h5min
    have hmax : cfg.size_max / 5 * 5 = cfg.size_max := Int.ediv_mul_cancel h5max
    subst hw
    refine ⟨hh.symm, ⟨rand (cfg.size_min / 5) (cfg.size_max / 5), mul_comm _ 5⟩, ?_, ?_,
      rand (cfg.size_min / 5) (cfg.size_max / 5), rfl, hr.1, hr.2⟩
    · calc cfg.size_min = cfg.size_min / 5 * 5 := hmin.symm
        _ ≤ rand (cfg.size_min / 5) (cfg.size_max / 5) * 5 := by
            have := hr.1
            omega
    · calc rand (cfg.size_min / 5) (cfg.size_max / 5) * 5
          ≤ cfg.size_max / 5 * 5 := by
            have := hr.2
            omega
        _ = cfg.size_max := hmax

/-- Witness for C9 with the default bounds `size_min = 20`, `size_max = 50`. -/
theorem map_size_spec_witness :
    (20 : Int) = 20 ∧ ((5 : Int) ∣ 20) ∧
    ({} : ManagerCfg).size_min ≤ 20 ∧ (20 : Int) ≤ ({} : ManagerCfg).size_max ∧
    ∃ k, (20 : Int) = k * 5 ∧ ({} : ManagerCfg).size_min / 5 ≤ k ∧
      k ≤ ({} : ManagerCfg).size_max / 5 :=
  map_size_spec {} (fun lo _ => lo) (fun lo _ h => ⟨le_refl lo, h⟩) 20 20 (by decide)

/-- Claim C5, counterexample: the participant-count draw of
`Manager.run_rounds` hard-codes its lower bound to `2` and ignores the
configured `players_min`. With `players_min = 3`, `players_max = 6` and a
pool of 5 active players (at least `players_min` members), the draw can
return `k = 2`, which is below `players_min` — so `k` does not always lie in
`[players_min, min(players_max, pool)]`. -/
theorem players_min_ignored :
    Manager.round_num_players { players_min := 3 } 5 (fun _ lo _ => lo) 0 = some 2 ∧
    2 < ({ players_min := 3 } : ManagerCfg).players_min := by
  exact ⟨rfl, by decide⟩

/-- Invariant of the draw-and-remove loop of `Manager.pick_players`: with an
in-range random oracle, enough elements in `open_set`, and the accumulated
picks distinct and disjoint from `open_set`, the loop succeeds and returns
distinct elements drawn from `acc ∪ open_set`, `fuel` more than it started
with. -/
lemma pick_loop_spec (rand : Nat → Nat → Nat → Nat)
    (hrand : ∀ t lo hi, lo ≤ hi → lo ≤ rand t lo hi ∧ rand t lo hi ≤ hi)
    (fuel : Nat) :
    ∀ (open_set acc : List Nat) (t : Nat),
      open_set.Nodup → acc.Nodup → (∀ x ∈ acc, x ∉ open_set) →
      fuel ≤ open_set.length →
      ∃ l, pick_loop rand fuel open_set acc t = some l ∧
        l.length = acc.length + fuel ∧ l.Nodup ∧
        ∀ x ∈ l, x ∈ acc ∨ x ∈ open_set := by
  induction fuel with
  | zero =>
    intro open_set acc t _ hna _ _
    exact ⟨acc, rfl, by simp, hna, fun x hx => Or.inl hx⟩
  | succ n ih =>
    intro open_set acc t hno hna hdisj hlen
    have hne : open_set ≠ [] := by
      intro hnil
      rw [hnil] at hlen
      simp at hlen
    have hpos : 0 < open_set.length := List.length_pos.2 hne
    have hidx := hrand t 0 (open_set.length - 1) (Nat.zero_le _)
    have hlt : rand t 0 (open_set.length - 1) < open_set.length := by omega
    set chosen := open_set.get ⟨rand t 0 (open_set.length - 1), hlt⟩ with hchosen_def
    have hchosen : open_set[rand t 0 (open_set.length - 1)]? = some chosen := by
      rw [List.getElem?_eq_getElem hlt]
      simp [hchosen_def]
    have hmem : chosen ∈ open_set := by
      rw [hchosen_def]
      exact List.get_mem _ _ _
    have hno' : (open_set.erase chosen).Nodup := hno.erase _
    have hacc' : (acc ++ [chosen]).Nodup := by
      rw [List.nodup_append]
      refine ⟨hna, List.nodup_singleton _, ?_⟩
      intro x hx hx'
      rw [List.mem_singleton] at hx'
      apply hdisj x hx
      rw [hx']
      exact hmem
    have hdisj' : ∀ x ∈ acc ++ [chosen], x ∉ open_set.erase chosen := by
      intro x hx hxe
      rcases List.mem_append.1 hx with hxa | hxc
      · exact hdisj x hxa (List.mem_of_mem_erase hxe)
      · rw [List.mem_singleton] at hxc
        subst hxc
        exact ((hno.mem_erase_iff).1 hxe).1 rfl
    have hlen' : n ≤ (open_set.erase chosen).length := by
      rw [List.length_erase_of_mem hmem]
      omega
    obtain ⟨l, hl, hlen2, hnd, hsub⟩ :=
      ih (open_set.erase chosen) (acc ++ [chosen]) (t + 1) hno' hacc' hdisj' hlen'
    refine ⟨l, ?_, ?_, hnd, ?_⟩
    · rw [pick_loop]
      have hf : open_set.isEmpty = false := by
        cases open_set with
        | nil => exact absurd rfl hne
        | cons a as => rfl
      rw [hf]
      simp only [Bool.false_eq_true, if_false]
      rw [hchosen]
      exact hl
    · rw [hlen2]
      simp
      omega
    · intro x hx
      rcases hsub x hx with hxa | hxe
      · rcases List.mem_append.1 hxa with h1 | h2
        · exact Or.inl h1
        · rw [List.mem_singleton] at h2
          subst h2
          exact Or.inr hmem
      · exact Or.inr (List.mem_of_mem_erase hxe)

/-- Claim C5, amended: the participant count `k` drawn by `run_rounds` lies
in `[2, min(players_max, pool)]` (the lower bound is the hard-coded literal
`2`, not `players_min`), the selection loop succeeds, and whatever list it
returns holds `k` distinct pool indices drawn without replacement. -/
theorem pick_players_spec (cfg : ManagerCfg) (numPool : Nat)
    (rand : Nat → Nat → Nat → Nat)
    (hrand : ∀ t lo hi, lo ≤ hi → lo ≤ rand t lo hi ∧ rand t lo hi ≤ hi)
    (k : Nat) (l : List Nat)
    (hk : Manager.round_num_players cfg numPool rand 0 = some k)
    (hl : Manager.pick_players numPool k rand = some l) :
    2 ≤ k ∧ k ≤ min cfg.players_max numPool ∧
    l.length = k ∧ l.Nodup ∧ ∀ x ∈ l, x < numPool := by
  unfold Manager.round_num_players at hk
  split at hk
  case isTrue => exact absurd hk (by simp)
  case isFalse hcond =>
    obtain rfl := Option.some.inj hk
    have hr := hrand 0 2 (min cfg.players_max numPool) (by omega)
    refine ⟨hr.1, hr.2, ?_⟩
    have hkle : rand 0 2 (min cfg.players_max numPool) ≤ numPool :=
      le_trans hr.2 (min_le_right _ _)
    obtain ⟨l', hl', hlen, hnd, hsub⟩ :=
      pick_loop_spec rand hrand (rand 0 2 (min cfg.players_max numPool))
        (List.range numPool) [] 0 (List.nodup_range _) List.nodup_nil
        (by simp) (by simpa using hkle)
    rw [Manager.pick_players, hl'] at hl
    obtain rfl := Option.some.inj hl
    refine ⟨by simpa using hlen, hnd, ?_⟩
    intro x hx
    rcases hsub x hx with hfalse | hmem
    · simp at hfalse
    · exact List.mem_range.1 hmem

/-- Witness for C5 (amended) with the default configuration and a pool of
5 active players. -/
theorem pick_players_spec_witness :
    2 ≤ 2 ∧ 2 ≤ min ({} : ManagerCfg).players_max 5 ∧
    ([0, 1] : List Nat).length = 2 ∧ ([0, 1] : List Nat).Nodup ∧
    ∀ x ∈ ([0, 1] : List Nat), x < 5 :=
  pick_players_spec {} 5 (fun _ lo _ => lo) (fun _ lo _ h => ⟨le_refl lo, h⟩)
    2 [0, 1] (by decide) (by decide)

/-- A successful `parseLine` on a rank line (loop counter strictly between
`num_players` and `2 * num_players + 1`) means both numeric tokens parsed. -/
lemma parseLine_ok_rank_tokens (n : Nat) (st : ParseState) (count : Nat)
    (line : String) (st' : ParseState)
    (h : parseLine n st count line = .ok st')
    (h1 : n + 1 ≤ count) (h2 : count ≤ 2 * n) :
    rank_line_tokens_ok line := by
  unfold parseLine at h
  rw [if_neg (by omega), if_neg (by omega), if_neg (by omega),
    if_pos (by omega)] at h
  cases e0 : (pySplit line ' ')[0]? with
  | none =>
    rw [e0] at h
    simp at h
  | some t0 =>
    simp only [e0] at h
    cases e1 : pyInt t0 with
    | none =>
      simp only [e1] at h
      simp at h
    | some r =>
      simp only [e1] at h
      cases e2 : (pySplit line ' ')[1]? with
      | none =>
        simp only [e2] at h
        simp at h
      | some t1 =>
        simp only [e2] at h
        cases e3 : pyInt t1 with
        | none =>
          simp only [e3] at h
          simp at h
        | some p => exact ⟨t0, t1, r, p, e0, e1, e2, e3⟩

/-- If the whole line loop succeeds, every line it visited at a rank-line
counter had both numeric tokens parse. -/
lemma parseLines_ok_rank_tokens (n : Nat) :
    ∀ (ls : List String) (st : ParseState) (count : Nat) (st' : ParseState),
      parseLines n st count ls = .ok st' →
      ∀ j line, ls[j]? = some line → n + 1 ≤ count + j → count + j ≤ 2 * n →
        rank_line_tokens_ok line := by
  intro ls
  induction ls with
  | nil =>
    intro st count st' h j line hj
    simp at hj
  | cons hd tl ih =>
    intro st count st' h j line hj h1 h2
    rw [parseLines] at h
    cases hp : parseLine n st count hd with
    | error e =>
      rw [hp] at h
      simp at h
    | ok st1 =>
      rw [hp] at h
      cases j with
      | zero =>
        have hhd : hd = line := by simpa using hj
        subst hhd
        exact parseLine_ok_rank_tokens n st count hd st1 hp (by omega) (by omega)
      | succ j' =>
        simp at hj
        exact ih st1 (count + 1) st' h j' line hj (by omega) (by omega)

/-- Claim C2, amended: parsing fails with the parser's `ValueError` whenever
fewer than `2 + 2 * num_players` newline-delimited lines are present, and a
successful parse requires every expected numeric token on every rank line to
have parsed as an integer (equivalently: a failed numeric token fails the
parse). Not every protocol deviation is such an error, however — see the
counterexample: an out-of-range participant index of 0 is accepted silently,
and one above `num_players` raises `IndexError` instead. -/
theorem parse_error_conditions (n : Nat) (s : String) :
    ((pySplit s '\n').length < 2 + 2 * n →
      parse_results_string n s = .error .valueError) ∧
    (∀ st, parse_results_string n s = .ok st →
      2 + 2 * n ≤ (pySplit s '\n').length ∧
      ∀ count line, (pySplit s '\n')[count]? = some line →
        n + 1 ≤ count → count ≤ 2 * n → rank_line_tokens_ok line) := by
  constructor
  · intro hlen
    unfold parse_results_string
    rw [if_pos hlen]
  · intro st h
    unfold parse_results_string at h
    by_cases hlen : (pySplit s '\n').length < 2 + 2 * n
    · rw [if_pos hlen] at h
      simp at h
    · rw [if_neg hlen] at h
      refine ⟨by omega, ?_⟩
      intro count line hline h1 h2
      exact parseLines_ok_rank_tokens n (pySplit s '\n')
        (initMatchState n) 0 st h count line hline (by omega) (by omega)

/-- Witness for C2 (amended): two participants but an empty output (1 line,
needing 6) is a `ValueError`. -/
theorem parse_error_conditions_witness :
    parse_results_string 2 "" = Except.error PyErr.valueError :=
  (parse_error_conditions 2 "").1 (by decide)

lemma idxOfName_getElem :
    ∀ (l : List String), l.Nodup → ∀ i (h : i < l.length),
      idxOfName l (l.get ⟨i, h⟩) = i := by
  intro l
  induction l with
  | nil =>
    intro _ i h
    simp at h
  | cons nm rest ih =>
    intro hnd i h
    rcases List.nodup_cons.1 hnd with ⟨hnm, hrest⟩
    cases i with
    | zero => simp [idxOfName]
    | succ i' =>
      have h' : i' < rest.length := by simpa using h
      have hmem : rest.get ⟨i', h'⟩ ∈ rest := List.get_mem _ _ _
      have hne : nm ≠ rest.get ⟨i', h'⟩ := fun he => hnm (he ▸ hmem)
      have hg : (nm :: rest).get ⟨i' + 1, h⟩ = rest.get ⟨i', h'⟩ := rfl
      rw [hg]
      simp only [idxOfName, if_neg hne]
      rw [ih hrest i' h']

lemma map_idxOfName_self (l : List String) (h : l.Nodup) :
    l.map (fun nm => idxOfName l nm) = List.range l.length := by
  apply List.ext_getElem
  · simp
  · intro i h1 h2
    have h1' : i < l.length := by simpa using h1
    simp only [List.getElem_map, List.getElem_range]
    have := idxOfName_getElem l h i h1'
    simpa [List.get_eq_getElem] using this

/-- Characterisation of the rank-assignment loop: with pairwise-distinct
names, every row whose name occurs in the list receives rank
`i + (its position) + 1`, and other rows are untouched. -/
lemma assign_ranks_eq :
    ∀ (names : List String), names.Nodup → ∀ (db : List Player) (i : Nat),
      assign_ranks db i names = db.map (fun r =>
        if r.name ∈ names then
          { r with rank := (i : Int) + (idxOfName names r.name : Int) + 1 }
        else r) := by
  intro names
  induction names with
  | nil =>
    intro _ db i
    simp [assign_ranks]
  | cons nm rest ih =>
    intro hnd db i
    rcases List.nodup_cons.1 hnd with ⟨hnm, hrest⟩
    rw [assign_ranks, ih hrest, Database.update_player_rank, List.map_map]
    apply List.map_congr_left
    intro r _
    by_cases hr : r.name = nm
    · simp [Function.comp, hr, hnm, idxOfName, List.mem_cons]
    · by_cases hmem : r.name ∈ rest
      · simp [Function.comp, hr, hmem, idxOfName, Ne.symm hr, List.mem_cons]
        ring
      · simp [Function.comp, hr, hmem, List.mem_cons]

/-- `Database.update_player_ranks` rewrites every row's rank to one plus its
position in the skill-descending name order (given distinct names). -/
lemma update_player_ranks_eq (db : List Player)
    (h : (db.map Player.name).Nodup) :
    Database.update_player_ranks db = db.map (fun r =>
      { r with rank :=
          (idxOfName ((order_by_skill_desc db).map Player.name) r.name : Int) + 1 }) := by
  have hperm : List.Perm (order_by_skill_desc db) db := List.perm_insertionSort _ _
  have hnames : List.Perm ((order_by_skill_desc db).map Player.name) (db.map Player.name) :=
    hperm.map _
  have hnd : ((order_by_skill_desc db).map Player.name).Nodup :=
    hnames.nodup_iff.2 h
  rw [Database.update_player_ranks, assign_ranks_eq _ hnd db 0]
  apply List.map_congr_left
  intro r hr
  have hmem : r.name ∈ (order_by_skill_desc db).map Player.name :=
    hnames.mem_iff.2 (List.mem_map_of_mem _ hr)
  rw [if_pos hmem]
  simp

/-- Claim C6: after `Database.update_player_ranks`, the stored ranks are a
dense permutation of `1..N` (no gaps, no duplicates, any `N ≥ 0`), and the
player named like the `i`-th entry of the skill-descending order holds rank
`i + 1` — ranks are assigned in order of skill descending. Distinct names
are guaranteed by the schema (`name text unique`). -/
theorem update_player_ranks_dense (db : List Player)
    (h : (db.map Player.name).Nodup) :
    ((Database.update_player_ranks db).map Player.rank).Perm
      ((List.range db.length).map (fun i : Nat => (i : Int) + 1)) ∧
    ∀ i (hi : i < (order_by_skill_desc db).length) (r : Player),
      r ∈ Database.update_player_ranks db →
      r.name = ((order_by_skill_desc db).get ⟨i, hi⟩).name →
      r.rank = (i : Int) + 1 := by
  have hperm : List.Perm (order_by_skill_desc db) db := List.perm_insertionSort _ _
  have hnames : List.Perm ((order_by_skill_desc db).map Player.name) (db.map Player.name) :=
    hperm.map _
  have hnd : ((order_by_skill_desc db).map Player.name).Nodup :=
    hnames.nodup_iff.2 h
  have hlen : ((order_by_skill_desc db).map Player.name).length = db.length := by
    rw [List.length_map]
    exact hperm.length_eq
  have heq := update_player_ranks_eq db h
  constructor
  · rw [heq, List.map_map]
    have hstep :
        (db.map (Player.rank ∘ fun r =>
          { r with rank :=
              (idxOfName ((order_by_skill_desc db).map Player.name) r.name : Int) + 1 }))
        = (db.map Player.name).map (fun nm =>
            (idxOfName ((order_by_skill_desc db).map Player.name) nm : Int) + 1) := by
      rw [List.map_map]
      rfl
    rw [hstep]
    have htarget :
        (List.range db.length).map (fun i : Nat => (i : Int) + 1)
        = (((order_by_skill_desc db).map Player.name).map (fun nm =>
            (idxOfName ((order_by_skill_desc db).map Player.name) nm : Int) + 1)) := by
      rw [← hlen, ← map_idxOfName_self ((order_by_skill_desc db).map Player.name) hnd,
        List.map_map]
      rfl
    rw [htarget]
    exact hnames.symm.map _
  · intro i hi r hrmem hrname
    rw [heq] at hrmem
    obtain ⟨r0, hr0, rfl⟩ := List.mem_map.1 hrmem
    have hi' : i < ((order_by_skill_desc db).map Player.name).length := by
      rw [List.length_map]
      exact hi
    have hn : r0.name = ((order_by_skill_desc db).map Player.name).get ⟨i, hi'⟩ := by
      have hgm : ((order_by_skill_desc db).map Player.name).get ⟨i, hi'⟩ =
          ((order_by_skill_desc db).get ⟨i, hi⟩).name := by
        simp [List.get_eq_getElem]
      rw [hgm]
      exact hrname
    show ((idxOfName ((order_by_skill_desc db).map Player.name) r0.name : Int) + 1)
      = (i : Int) + 1
    rw [hn, idxOfName_getElem _ hnd i hi']

/-- Witness for C6 at a concrete two-row table. -/
theorem update_player_ranks_dense_witness :
    ((Database.update_player_ranks
        [{ defaultPlayerRow "a" "p" "t" with skill := 1 },
         { defaultPlayerRow "b" "q" "t" with skill := 5 }]).map Player.rank).Perm
      ((List.range
        ([{ defaultPlayerRow "a" "p" "t" with skill := 1 },
          { defaultPlayerRow "b" "q" "t" with skill := 5 }] : List Player).length).map
        (fun i : Nat => (i : Int) + 1)) :=
  (update_player_ranks_dense
    [{ defaultPlayerRow "a" "p" "t" with skill := 1 },
     { defaultPlayerRow "b" "q" "t" with skill := 5 }] (by decide)).1

end Halite
